import Mathlib

/-!
Shallow embedding of the analytical core of the `ct_scan` cycle-time
analysis application (TypeScript/React).  JavaScript numbers are modelled
as exact rationals (`ℚ`); the infinite results of `Math.min()` /
`Math.max()` on an empty argument list are modelled by `Option`
(`none` standing for the ±Infinity outcome); calendar timestamps
produced by `new Date(year, month - 1, day)` are modelled by the day
ordinal (days since 2020-01-01, i.e. the timestamp divided by
86 400 000 ms, in a fixed-offset time zone).
-/

namespace CtScan

/-! ### JavaScript string/number primitives -/

/-- Numeric value of a list of decimal digit characters, most significant
first, as produced by reading a digit run left to right. -/
def digitsVal (ds : List Char) : ℕ :=
  ds.foldl (fun n c => 10 * n + (c.toNat - 48)) 0

/-- Character is one of the whitespace characters `parseInt`/`parseFloat`
skip at the start of their input and `trim` removes at either end. -/
def isJsSpace (c : Char) : Bool :=
  c = ' ' || c = '\t' || c = '\n' || c = '\r'

/-- Models JavaScript `String.prototype.trim()` on a character list:
whitespace is removed from both ends. -/
def jsTrim (cs : List Char) : List Char :=
  ((cs.dropWhile isJsSpace).reverse.dropWhile isJsSpace).reverse

/-- Sign and remaining characters after an optional leading `-` or `+`,
shared by the `parseInt` / `parseFloat` models. -/
def readSign (cs : List Char) : ℤ × List Char :=
  match cs with
  | '-' :: rest => (-1, rest)
  | '+' :: rest => (1, rest)
  | _ => (1, cs)

/-- Models JavaScript `parseInt(s, 10)` on a character list: skip leading
whitespace, optional sign, then the longest run of decimal digits;
`none` models the `NaN` result when no digit is found.  Trailing
non-digit characters are ignored, exactly as in JS. -/
def jsParseIntChars (cs0 : List Char) : Option ℤ :=
  let cs := cs0.dropWhile isJsSpace
  let sr := readSign cs
  let ds := sr.2.takeWhile Char.isDigit
  if ds.isEmpty then none else some (sr.1 * (digitsVal ds : ℤ))

/-- JavaScript `parseInt(s, 10)` on a string. -/
def jsParseInt (s : String) : Option ℤ :=
  jsParseIntChars s.toList

/-- The digit structure read by `parseFloat`: sign, integer-part digits
and fraction digits (empty when there is no `.`), or `none` when no
digit is found at all. -/
def jsParseFloatParts (cs0 : List Char) : Option (ℤ × ℕ × ℕ × ℕ) :=
  let cs := cs0.dropWhile isJsSpace
  let sr := readSign cs
  let intDs := sr.2.takeWhile Char.isDigit
  let rest := sr.2.dropWhile Char.isDigit
  let fracDs : List Char :=
    match rest with
    | '.' :: r => r.takeWhile Char.isDigit
    | _ => []
  if intDs.isEmpty && fracDs.isEmpty then none
  else some (sr.1, digitsVal intDs, digitsVal fracDs, fracDs.length)

/-- Models JavaScript `parseFloat(s)`: skip leading whitespace, optional
sign, integer digits, optionally a dot and fraction digits; `none`
models `NaN` (no digit at all).  Exponent notation does not occur in the
inputs this code base feeds to `parseFloat` and is not modelled. -/
def jsParseFloat (s : String) : Option ℚ :=
  (jsParseFloatParts s.toList).map
    (fun p => (p.1 : ℚ) * ((p.2.1 : ℚ) + (p.2.2.1 : ℚ) / (10 : ℚ) ^ p.2.2.2))

/-- Models the regular expression test for a day-first date string used by
the fallback column detection in the components: one or two digits, a
`/` or `-` separator, one or two digits, a separator, then two to four
digits, anchored at both ends. -/
def matchesDatePattern (cs : List Char) : Bool :=
  let d1 := cs.takeWhile Char.isDigit
  match cs.dropWhile Char.isDigit with
  | sep1 :: rest1 =>
    (d1.length = 1 || d1.length = 2) && (sep1 = '/' || sep1 = '-') &&
    (let d2 := rest1.takeWhile Char.isDigit
     match rest1.dropWhile Char.isDigit with
     | sep2 :: rest2 =>
       (d2.length = 1 || d2.length = 2) && (sep2 = '/' || sep2 = '-') &&
       (let d3 := rest2.takeWhile Char.isDigit
        decide (2 ≤ d3.length) && decide (d3.length ≤ 4) &&
          (rest2.dropWhile Char.isDigit).isEmpty)
     | [] => false)
  | [] => false

/-- Models the JS split on the dash-or-slash regex from the date parsing:
the character list is split on every dash or slash, keeping empty
segments, as the JS regex split does. -/
def splitOnDateSeps : List Char → List (List Char)
  | [] => [[]]
  | c :: rest =>
    if c = '-' || c = '/' then [] :: splitOnDateSeps rest
    else
      match splitOnDateSeps rest with
      | [] => [[c]]
      | p :: ps => (c :: p) :: ps

/-! ### Calendar dates

`new Date(year, month - 1, day)` normalises out-of-range day values by
rolling them into the following month; the timestamp (divided by one day
in milliseconds) is exactly the civil day ordinal computed here. -/

/-- Gregorian leap-year predicate, as implemented by the JS `Date`
object's calendar arithmetic. -/
def isLeapYear (y : ℕ) : Bool :=
  (y % 4 = 0 && y % 100 ≠ 0) || y % 400 = 0

/-- Number of days in a month of a given year. -/
def daysInMonth (y m : ℕ) : ℕ :=
  if m = 2 then (if isLeapYear y then 29 else 28)
  else if m = 4 || m = 6 || m = 9 || m = 11 then 30
  else 31

/-- Number of days in a year. -/
def daysInYear (y : ℕ) : ℕ := if isLeapYear y then 366 else 365

/-- Days from 2020-01-01 up to January 1st of year `y` (the date parser
only accepts years in 2020..2030, so 2020 is a convenient epoch). -/
def daysBeforeYear (y : ℕ) : ℕ :=
  ((List.range (y - 2020)).map (fun i => daysInYear (2020 + i))).sum

/-- Days from January 1st of year `y` up to the first day of month `m`. -/
def daysBeforeMonth (y m : ℕ) : ℕ :=
  ((List.range (m - 1)).map (fun i => daysInMonth y (1 + i))).sum

/-- Day ordinal of the calendar point `new Date(y, m - 1, d)` relative to
2020-01-01.  For `d` beyond the length of month `m` this rolls over into
the following month, exactly as the JS `Date` constructor does. -/
def dayNumber (y m d : ℕ) : ℕ :=
  daysBeforeYear y + daysBeforeMonth y m + (d - 1)

/-- The end-date parsing shared by the analysis components: trim, split on
`/` or `-`, require exactly three parts read as day, month, year via
`parseInt`, accept iff `1 ≤ day ≤ 31`, `1 ≤ month ≤ 12`,
`2020 ≤ year ≤ 2030`, and produce the day ordinal of
`new Date(year, month - 1, day)`. -/
def parseEndDate (s : String) : Option ℕ :=
  match splitOnDateSeps (jsTrim s.toList) with
  | [p1, p2, p3] =>
    match jsParseIntChars (jsTrim p1), jsParseIntChars (jsTrim p2),
        jsParseIntChars (jsTrim p3) with
    | some d, some m, some y =>
      if 1 ≤ d ∧ d ≤ 31 ∧ 1 ≤ m ∧ m ≤ 12 ∧ 2020 ≤ y ∧ y ≤ 2030 then
        some (dayNumber y.toNat m.toNat d.toNat)
      else none
    | _, _, _ => none
  | _ => none

/-! ### Distribution statistics (CycleTimeAnalysis) -/

/-- Models `Math.min(...l)` on a spread list: the fold of binary `min`
starting from `Infinity`; `none` is the `Infinity` result on an empty
argument list. -/
def jsMinList (l : List ℚ) : Option ℚ :=
  l.foldl (fun acc x =>
    match acc with
    | none => some x
    | some a => some (min a x)) none

/-- Models `Math.max(...l)`: the fold of binary `max` starting from
`-Infinity`; `none` is the `-Infinity` result on an empty argument
list. -/
def jsMaxList (l : List ℚ) : Option ℚ :=
  l.foldl (fun acc x =>
    match acc with
    | none => some x
    | some a => some (max a x)) none

/-- The interpolated percentile of the cycle-time analysis, generalised
over `p` exactly as the spec's `computePercentile` entry point; the
component inlines this computation at `p = 0.85`:
`index = (n - 1) * p`, `lower = floor(index)`, `upper = ceil(index)`,
`weight = index % 1`, and the result is `values[lower]` when
`lower == upper`, else the linear interpolation between the two order
statistics. -/
def computePercentile (values : List ℚ) (p : ℚ) : ℚ :=
  let index : ℚ := ((values.length : ℚ) - 1) * p
  let lower : ℕ := ⌊index⌋.toNat
  let upper : ℕ := ⌈index⌉.toNat
  let weight : ℚ := index - ⌊index⌋
  if lower = upper then values.getD lower 0
  else values.getD lower 0 * (1 - weight) + values.getD upper 0 * weight

/-- The statistics block returned by the cycle-time analysis. -/
structure CycleStats where
  count : ℕ
  average : ℚ
  min : Option ℚ
  max : Option ℚ
  p85 : ℚ
  deriving DecidableEq, Repr

/-- The cycle-time distribution statistics: the cycle times are sorted
ascending, the 85th percentile is interpolated (0 on an empty sample),
the average models `sum / length || 0` (the `NaN` of the empty sample's
`0 / 0` becomes 0, and a genuine 0 mean is unchanged), and min/max are
`Math.min(...)` / `Math.max(...)` over the sorted sample. -/
def cycleStats (cycleTimes : List ℚ) : CycleStats :=
  let sorted := cycleTimes.mergeSort (fun a b => decide (a ≤ b))
  { count := sorted.length
    average := if sorted.length = 0 then 0 else sorted.sum / (sorted.length : ℚ)
    min := jsMinList sorted
    max := jsMaxList sorted
    p85 := if 0 < sorted.length then computePercentile sorted (85 / 100) else 0 }

/-! ### Process Behaviour Analyzer (Shewhart Individuals/Moving-Range) -/

/-- One plotted point of the process behaviour chart. -/
structure ProcessPoint where
  sequence : ℕ
  cycleTime : ℚ
  movingRange : Option ℚ
  isSpecialCause : Bool
  deriving DecidableEq, Repr

/-- The statistics block of the process behaviour chart. -/
structure ProcessStats where
  centralLine : ℚ
  upperProcessLimit : ℚ
  lowerProcessLimit : ℚ
  averageMovingRange : ℚ
  totalItems : ℕ
  specialCauseCount : ℕ
  deriving DecidableEq, Repr

/-- The moving ranges: `|value[i] - value[i-1]|` for `i = 1 .. n-1`,
built by the indexed loop of the component. -/
def movingRanges (cts : List ℚ) : List ℚ :=
  (List.range (cts.length - 1)).map (fun i => |cts.getD (i + 1) 0 - cts.getD i 0|)

/-- The Shewhart Individuals/Moving-Range analysis over a chronologically
ordered cycle-time sequence: central line is the arithmetic mean, the
control limits use the 2.66 multiplier on the average moving range, the
lower limit is clamped at 0, and a point is special cause iff its value
is strictly outside the limits. -/
def analyzeProcessBehaviour (cts : List ℚ) : List ProcessPoint × ProcessStats :=
  if cts.length = 0 then ([], ⟨0, 0, 0, 0, 0, 0⟩)
  else
    let centralLine := cts.sum / (cts.length : ℚ)
    let mrs := movingRanges cts
    let averageMovingRange := if 0 < mrs.length then mrs.sum / (mrs.length : ℚ) else 0
    let upperProcessLimit := centralLine + (266 / 100) * averageMovingRange
    let lowerProcessLimit := max 0 (centralLine - (266 / 100) * averageMovingRange)
    let pts := (List.range cts.length).map (fun i =>
      let ct := cts.getD i 0
      { sequence := i + 1
        cycleTime := ct
        movingRange := if 0 < i then some (mrs.getD (i - 1) 0) else none
        isSpecialCause := decide (ct > upperProcessLimit) || decide (ct < lowerProcessLimit)
        : ProcessPoint })
    (pts,
      { centralLine := centralLine
        upperProcessLimit := upperProcessLimit
        lowerProcessLimit := lowerProcessLimit
        averageMovingRange := averageMovingRange
        totalItems := pts.length
        specialCauseCount := (pts.filter (fun q => q.isSpecialCause)).length })

/-! ### Throughput Aggregator (MonteCarloAnalysis `dailyThroughput`)

Completion dates are represented by their day ordinal (see `dayNumber`).
Grouping a list of completion days by day and looking the count up with
`|| 0` is the same as `List.count`; the min/max over the grouped
timestamps are the spread `Math.min`/`Math.max` folds. -/

/-- `Math.min(...timestamps)` over the grouped completion days. -/
def minDay (days : List ℕ) : ℕ := days.foldl min (days.headD 0)

/-- `Math.max(...timestamps)` over the grouped completion days. -/
def maxDay (days : List ℕ) : ℕ := days.foldl max (days.headD 0)

/-- The daily throughput sequence: one `(day ordinal, count)` entry per
calendar day stepping from the minimum to the maximum completion day
inclusive, the count looked up in the per-day grouping with `|| 0`
(which is `List.count` of the day among the completion days). -/
def buildDailyThroughput (days : List ℕ) : List (ℕ × ℕ) :=
  if days.length = 0 then []
  else
    (List.range (maxDay days - minDay days + 1)).map
      (fun i => (minDay days + i, days.count (minDay days + i)))

/-! ### Monte Carlo Forecaster (MonteCarloAnalysis simulation) -/

/-- The statistics block reported by the Monte Carlo simulation. -/
structure SimStats where
  totalSimulations : ℕ
  p50 : ℕ
  p85 : ℕ
  p95 : ℕ
  mean : ℚ
  min : ℕ
  max : ℕ
  deriving DecidableEq, Repr

/-- One simulated trial: the sum over the forecast horizon of values drawn
from the historical sample; `rand day` is the index the injected random
source produces for that day (the code draws
`Math.floor(Math.random() * length)`, always in bounds, so the
out-of-bounds default 0 of `getD` is never used for such sources). -/
def trialTotal (tp : List ℕ) (horizon : ℕ) (rand : ℕ → ℕ) : ℕ :=
  ((List.range horizon).map (fun day => tp.getD (rand day) 0)).sum

/-- The unsorted list of the `numSims` trial totals; `rand sim day` is the
random index drawn in simulation `sim` for forecast day `day`. -/
def simTotals (tp : List ℕ) (numSims horizon : ℕ) (rand : ℕ → ℕ → ℕ) : List ℕ :=
  (List.range numSims).map (fun sim => trialTotal tp horizon (rand sim))

/-- The ascending-sorted trial totals. -/
def sortedTotals (tp : List ℕ) (numSims horizon : ℕ) (rand : ℕ → ℕ → ℕ) : List ℕ :=
  (simTotals tp numSims horizon rand).mergeSort (fun a b => decide (a ≤ b))

/-- The Monte Carlo forecaster: on an empty historical sample it reports
zero simulations, all-zero statistics and an empty histogram; otherwise
it sorts the trial totals ascending, reads the confidence thresholds at
the floor-indexed positions (`results[i] || 0` coincides with
`getD i 0`: in bounds the two agree even when the stored total is the
falsy 0, and the indices are in bounds whenever `numSims ≥ 1`), and
builds the value→frequency histogram sorted by value.  The mean models
`sum / length` (the out-of-claim `numSims = 0` case yields 0 where JS
yields `NaN`). -/
def runMonteCarlo (tp : List ℕ) (numSims horizon : ℕ) (rand : ℕ → ℕ → ℕ) :
    SimStats × List (ℕ × ℕ) :=
  if tp.length = 0 then (⟨0, 0, 0, 0, 0, 0, 0⟩, [])
  else
    let results := simTotals tp numSims horizon rand
    let sorted := sortedTotals tp numSims horizon rand
    let p50Index := ⌊(sorted.length : ℚ) * (50 / 100)⌋₊
    let p15Index := ⌊(sorted.length : ℚ) * (15 / 100)⌋₊
    let p5Index := ⌊(sorted.length : ℚ) * (5 / 100)⌋₊
    let stats : SimStats :=
      { totalSimulations := numSims
        p50 := sorted.getD p50Index 0
        p85 := sorted.getD p15Index 0
        p95 := sorted.getD p5Index 0
        mean := (results.sum : ℚ) / (results.length : ℚ)
        min := sorted.getD 0 0
        max := sorted.getD (sorted.length - 1) 0 }
    let histogram :=
      (sorted.dedup.mergeSort (fun a b => decide (a ≤ b))).map
        (fun v => (v, results.count v))
    (stats, histogram)

/-! ### Column Resolver (two-tier header matching) -/

/-- A CSV row: an association list from column name to raw cell text. -/
def Row : Type := List (String × String)

/-- Cell lookup, `none` when the row has no such column (JS `undefined`). -/
def getCell (r : Row) (k : String) : Option String :=
  (r.find? (fun p => p.1 = k)).map (fun p => p.2)

/-- The up-to-five sample values of a column:
`data.slice(0, 5).map(row => row[col]).filter(Boolean)` — missing cells
and empty strings are dropped. -/
def sampleValues (rows : List Row) (col : String) : List String :=
  ((rows.take 5).filterMap (fun r => getCell r col)).filter (fun v => v ≠ "")

/-- JavaScript `toLowerCase()` as used on header names. -/
def jsToLower (s : String) : String :=
  String.mk (s.toList.map Char.toLower)

/-- Tier-1 matching: the first header whose lower-cased form is one of the
given names. -/
def findHeader (headers : List String) (names : List String) : Option String :=
  headers.find? (fun h => names.contains (jsToLower h))

/-- Tier-2 date-candidate test: some sampled value, trimmed, matches the
date pattern. -/
def isDateColumn (rows : List Row) (col : String) : Bool :=
  (sampleValues rows col).any (fun v => matchesDatePattern (jsTrim v.toList))

/-- Tier-2 cycle-time-candidate test: every sampled value parses via
`parseFloat` to a number in `[0, 100]`. -/
def isCycleTimeColumn (rows : List Row) (col : String) : Bool :=
  (sampleValues rows col).all (fun v =>
    match jsParseFloat v with
    | none => false
    | some q => decide (0 ≤ q) && decide (q ≤ 100))

/-- The end-date / cycle-time column resolution of the cycle-time and
process-behaviour components: Tier-1 exact case-insensitive header
matches, then, only if a role is still missing, one pass over the
columns assigning the first date-looking column to the end-date role
and the first all-numeric-in-range column to the cycle-time role. -/
def resolveCtColumns (headers : List String) (rows : List Row) :
    Option String × Option String :=
  let endCol := findHeader headers ["end", "end date"]
  let ctCol := findHeader headers ["ct", "cycle time"]
  if endCol.isSome && ctCol.isSome then (endCol, ctCol)
  else
    headers.foldl
      (fun acc col =>
        let acc1 := if acc.1.isNone && isDateColumn rows col then (some col, acc.2) else acc
        if acc1.2.isNone && isCycleTimeColumn rows col then (acc1.1, some col) else acc1)
      (endCol, ctCol)

/-! ### Correlation Aggregator (CorrelationAnalysis) -/

/-- The raw estimate / cycle-time / id cell texts of one row, as read
through the resolved columns. -/
structure CorrRow where
  estimate : String
  ct : String
  id : String
  deriving DecidableEq, Repr

/-- One group of the correlation analysis. -/
structure CorrGroup where
  estimate : ℤ
  minCT : ℚ
  maxCT : ℚ
  avgCT : ℚ
  count : ℕ
  items : List (String × ℚ)
  deriving DecidableEq, Repr

/-- The qualification filter of the grouping loop: the estimate must
`parseInt` and the cycle time must `parseFloat` to a strictly positive
number (`!isNaN(estimate) && !isNaN(cycleTime) && cycleTime > 0`);
a qualifying row yields its parsed estimate, id and cycle time. -/
def corrQualifies (r : CorrRow) : Option (ℤ × String × ℚ) :=
  match jsParseInt r.estimate, jsParseFloat r.ct with
  | some e, some c => if 0 < c then some (e, r.id, c) else none
  | _, _ => none

/-- The qualifying entries, in row order. -/
def corrEntries (rows : List CorrRow) : List (ℤ × String × ℚ) :=
  rows.filterMap corrQualifies

/-- The distinct estimate keys.  The JS `Map` holds its keys in first
insertion order; since the groups are subsequently sorted by estimate
and the keys are distinct, any duplicate-free enumeration of the keys
denotes the same final output. -/
def corrKeys (rows : List CorrRow) : List ℤ :=
  ((corrEntries rows).map (fun e => e.1)).dedup

/-- The members pushed into the group of estimate `e`, in row order. -/
def corrMembers (rows : List CorrRow) (e : ℤ) : List (String × ℚ) :=
  ((corrEntries rows).filter (fun x => x.1 = e)).map (fun x => x.2)

/-- A group record from its estimate and members: min/max are the spread
`Math.min`/`Math.max` folds over the members' cycle times (groups are
never empty, so the `headD` seed is a member), avg is sum over count. -/
def mkCorrGroup (e : ℤ) (items : List (String × ℚ)) : CorrGroup :=
  let cts := items.map (fun it => it.2)
  { estimate := e
    minCT := cts.foldl min (cts.headD 0)
    maxCT := cts.foldl max (cts.headD 0)
    avgCT := cts.sum / (cts.length : ℚ)
    count := items.length
    items := items }

/-- The correlation aggregation: group the qualifying rows by parsed
estimate, build each group's summary, and sort the groups ascending by
estimate (the JS comparator `a.estimate - b.estimate`). -/
def aggregateCorrelation (rows : List CorrRow) : List CorrGroup :=
  ((corrKeys rows).map (fun e => mkCorrGroup e (corrMembers rows e))).mergeSort
    (fun a b => decide (a.estimate ≤ b.estimate))

/-! ### Helper lemmas -/

theorem foldl_min_le_init {α : Type} [LinearOrder α] :
    ∀ (l : List α) (a : α), l.foldl min a ≤ a
  | [], _ => le_refl _
  | x :: t, a => le_trans (foldl_min_le_init t (min a x)) (min_le_left a x)

theorem foldl_min_le_mem {α : Type} [LinearOrder α] :
    ∀ (l : List α) (a x : α), x ∈ l → l.foldl min a ≤ x
  | y :: t, a, x, h => by
    rcases List.mem_cons.mp h with h1 | h1
    · subst h1
      exact le_trans (foldl_min_le_init t (min a x)) (min_le_right a x)
    · exact foldl_min_le_mem t (min a y) x h1

theorem foldl_min_mem {α : Type} [LinearOrder α] :
    ∀ (l : List α) (a : α), l.foldl min a = a ∨ l.foldl min a ∈ l
  | [], _ => Or.inl rfl
  | x :: t, a => by
    rcases foldl_min_mem t (min a x) with h | h
    · rcases min_choice a x with hc | hc
      · exact Or.inl (by rw [List.foldl_cons, h, hc])
      · exact Or.inr (by rw [List.foldl_cons, h, hc]; exact List.mem_cons_self _ _)
    · exact Or.inr (List.mem_cons_of_mem _ h)

theorem init_le_foldl_max {α : Type} [LinearOrder α] :
    ∀ (l : List α) (a : α), a ≤ l.foldl max a
  | [], _ => le_refl _
  | x :: t, a => le_trans (le_max_left a x) (init_le_foldl_max t (max a x))

theorem mem_le_foldl_max {α : Type} [LinearOrder α] :
    ∀ (l : List α) (a x : α), x ∈ l → x ≤ l.foldl max a
  | y :: t, a, x, h => by
    rcases List.mem_cons.mp h with h1 | h1
    · subst h1
      exact le_trans (le_max_right a x) (init_le_foldl_max t (max a x))
    · exact mem_le_foldl_max t (max a y) x h1

theorem foldl_max_mem {α : Type} [LinearOrder α] :
    ∀ (l : List α) (a : α), l.foldl max a = a ∨ l.foldl max a ∈ l
  | [], _ => Or.inl rfl
  | x :: t, a => by
    rcases foldl_max_mem t (max a x) with h | h
    · rcases max_choice a x with hc | hc
      · exact Or.inl (by rw [List.foldl_cons, h, hc])
      · exact Or.inr (by rw [List.foldl_cons, h, hc]; exact List.mem_cons_self _ _)
    · exact Or.inr (List.mem_cons_of_mem _ h)

theorem movingRanges_nil : movingRanges [] = [] := rfl

theorem movingRanges_singleton (a : ℚ) : movingRanges [a] = [] := rfl

theorem movingRanges_cons_cons (a b : ℚ) (t : List ℚ) :
    movingRanges (a :: b :: t) = |b - a| :: movingRanges (b :: t) := by
  simp only [movingRanges, List.length_cons, Nat.add_sub_cancel, List.range_succ_eq_map,
    List.map_cons, List.map_map, List.getD_cons_zero, List.getD_cons_succ]
  exact congrArg (fun l => |b - a| :: l) (List.map_congr_left (fun i _ => rfl))

theorem movingRanges_eq_zipWith :
    ∀ cts : List ℚ, movingRanges cts = List.zipWith (fun a b => |b - a|) cts cts.tail
  | [] => rfl
  | [_] => rfl
  | a :: b :: t => by
    rw [movingRanges_cons_cons, movingRanges_eq_zipWith (b :: t)]
    rfl

theorem length_movingRanges (cts : List ℚ) :
    (movingRanges cts).length = cts.length - 1 := by
  simp [movingRanges]

/-! ### Claim theorems -/

/-- C2: for every non-empty chronologically ordered cycle-time sequence,
the process behaviour analysis computes the central line as the
arithmetic mean, the average moving range as the mean of the absolute
consecutive differences (0 when there are fewer than 2 points),
`upperLimit = centralLine + 2.66 * averageMovingRange`,
`lowerLimit = max 0 (centralLine - 2.66 * averageMovingRange)`, and the
lower limit is never negative. -/
theorem processBehaviour_control_limits (cts : List ℚ) (hne : cts ≠ []) :
    (analyzeProcessBehaviour cts).2.centralLine = cts.sum / (cts.length : ℚ) ∧
    movingRanges cts = List.zipWith (fun a b => |b - a|) cts cts.tail ∧
    (analyzeProcessBehaviour cts).2.averageMovingRange =
      (if cts.length < 2 then 0
       else (movingRanges cts).sum / ((movingRanges cts).length : ℚ)) ∧
    (analyzeProcessBehaviour cts).2.upperProcessLimit =
      (analyzeProcessBehaviour cts).2.centralLine +
        (266 / 100) * (analyzeProcessBehaviour cts).2.averageMovingRange ∧
    (analyzeProcessBehaviour cts).2.lowerProcessLimit =
      max 0 ((analyzeProcessBehaviour cts).2.centralLine -
        (266 / 100) * (analyzeProcessBehaviour cts).2.averageMovingRange) ∧
    0 ≤ (analyzeProcessBehaviour cts).2.lowerProcessLimit := by
  have hlen : cts.length ≠ 0 := by
    simpa [List.length_eq_zero] using hne
  have hmr : (movingRanges cts).length = cts.length - 1 := length_movingRanges cts
  have hcl : (analyzeProcessBehaviour cts).2.centralLine = cts.sum / (cts.length : ℚ) := by
    simp only [analyzeProcessBehaviour, if_neg hlen]
  have hamr : (analyzeProcessBehaviour cts).2.averageMovingRange =
      (if 0 < (movingRanges cts).length
       then (movingRanges cts).sum / ((movingRanges cts).length : ℚ) else 0) := by
    simp only [analyzeProcessBehaviour, if_neg hlen]
  have hupl : (analyzeProcessBehaviour cts).2.upperProcessLimit =
      (analyzeProcessBehaviour cts).2.centralLine +
        (266 / 100) * (analyzeProcessBehaviour cts).2.averageMovingRange := by
    simp only [analyzeProcessBehaviour, if_neg hlen]
  have hlpl : (analyzeProcessBehaviour cts).2.lowerProcessLimit =
      max 0 ((analyzeProcessBehaviour cts).2.centralLine -
        (266 / 100) * (analyzeProcessBehaviour cts).2.averageMovingRange) := by
    simp only [analyzeProcessBehaviour, if_neg hlen]
  refine ⟨hcl, movingRanges_eq_zipWith cts, ?_, hupl, hlpl, ?_⟩
  · rw [hamr]
    by_cases h2 : cts.length < 2
    · have hnp : ¬ 0 < (movingRanges cts).length := by omega
      simp [hnp, h2]
    · have hp : 0 < (movingRanges cts).length := by omega
      simp [hp, h2]
  · rw [hlpl]
    exact le_max_left 0 _

/-- C2 witness: the control-limit characterisation evaluated on the
concrete sequence `[1, 2]`. -/
theorem processBehaviour_control_limits_witness :
    (analyzeProcessBehaviour [1, 2]).2.centralLine =
      List.sum [1, 2] / (List.length [(1 : ℚ), 2] : ℚ) ∧
    movingRanges [1, 2] = List.zipWith (fun a b => |b - a|) [1, 2] (List.tail [1, 2]) ∧
    (analyzeProcessBehaviour [1, 2]).2.averageMovingRange =
      (if List.length [(1 : ℚ), 2] < 2 then 0
       else (movingRanges [1, 2]).sum / ((movingRanges [(1 : ℚ), 2]).length : ℚ)) ∧
    (analyzeProcessBehaviour [1, 2]).2.upperProcessLimit =
      (analyzeProcessBehaviour [1, 2]).2.centralLine +
        (266 / 100) * (analyzeProcessBehaviour [1, 2]).2.averageMovingRange ∧
    (analyzeProcessBehaviour [1, 2]).2.lowerProcessLimit =
      max 0 ((analyzeProcessBehaviour [1, 2]).2.centralLine -
        (266 / 100) * (analyzeProcessBehaviour [1, 2]).2.averageMovingRange) ∧
    0 ≤ (analyzeProcessBehaviour [1, 2]).2.lowerProcessLimit :=
  processBehaviour_control_limits [1, 2] (by decide)

/-- Full evaluation of the process behaviour analysis on the
sequence `[10, 10, 10, 100]`: the mean is 32.5, the average moving range
30, the limits `[0, 112.3]`, and no point lies strictly outside them. -/
theorem pba_eval_10_10_10_100 :
    analyzeProcessBehaviour [10, 10, 10, 100] =
      ([{ sequence := 1, cycleTime := 10, movingRange := none, isSpecialCause := false },
        { sequence := 2, cycleTime := 10, movingRange := some 0, isSpecialCause := false },
        { sequence := 3, cycleTime := 10, movingRange := some 0, isSpecialCause := false },
        { sequence := 4, cycleTime := 100, movingRange := some 90, isSpecialCause := false }],
       { centralLine := 65 / 2, upperProcessLimit := 1123 / 10, lowerProcessLimit := 0,
         averageMovingRange := 30, totalItems := 4, specialCauseCount := 0 }) := by
  have hmr : movingRanges [10, 10, 10, 100] = [0, 0, 90] := by
    rw [movingRanges_eq_zipWith]
    norm_num [abs_of_nonneg]
  have h4 : List.range 4 = [0, 1, 2, 3] := by decide
  have hcl : ((10 : ℚ) + (10 + (10 + (100 + 0)))) / 4 = 65 / 2 := by norm_num
  have hamr : ((0 : ℚ) + (0 + (90 + 0))) / 3 = 30 := by norm_num
  simp only [analyzeProcessBehaviour, hmr, List.length_cons, List.length_nil, List.sum_cons,
    List.sum_nil, h4, List.map_cons, List.map_nil, List.getD_cons_zero, List.getD_cons_succ,
    hcl, hamr]
  norm_num [Prod.ext_iff, ProcessPoint.mk.injEq, ProcessStats.mk.injEq,
    Bool.or_eq_false_iff, decide_eq_false_iff_not, List.filter, max_eq_left]

/-- C3 counterexample: on the input `[10, 10, 10, 100]` the process
behaviour analysis does NOT flag the last point (value 100) as special
cause: the limits are `[0, 112.3]` and 100 lies inside them. -/
theorem pba_10_10_10_100_last_not_special :
    ((analyzeProcessBehaviour [10, 10, 10, 100]).1.map
        (fun p => p.isSpecialCause)).getD 3 true = false ∧
    (analyzeProcessBehaviour [10, 10, 10, 100]).1.length = 4 := by
  rw [pba_eval_10_10_10_100]
  exact ⟨rfl, rfl⟩

/-- C3 amended: on `[10, 10, 10, 100]` the computed limits are
`centralLine = 32.5`, `averageMovingRange = 30`,
`[lowerLimit, upperLimit] = [0, 112.3]`, and no point — in particular
not the last one — is flagged, since a point is special cause iff its
value lies strictly outside `[lowerLimit, upperLimit]` and 100 lies
inside. -/
theorem pba_10_10_10_100_amended :
    (analyzeProcessBehaviour [10, 10, 10, 100]).2.centralLine = 65 / 2 ∧
    (analyzeProcessBehaviour [10, 10, 10, 100]).2.averageMovingRange = 30 ∧
    (analyzeProcessBehaviour [10, 10, 10, 100]).2.upperProcessLimit = 1123 / 10 ∧
    (analyzeProcessBehaviour [10, 10, 10, 100]).2.lowerProcessLimit = 0 ∧
    (analyzeProcessBehaviour [10, 10, 10, 100]).2.specialCauseCount = 0 ∧
    ((analyzeProcessBehaviour [10, 10, 10, 100]).1.map (fun p => p.isSpecialCause)) =
      [false, false, false, false] ∧
    ¬ ((100 : ℚ) > 1123 / 10 ∨ (100 : ℚ) < 0) := by
  rw [pba_eval_10_10_10_100]
  norm_num

theorem headD_mem {α : Type} (l : List α) (d : α) (hne : l ≠ []) : l.headD d ∈ l := by
  cases l with
  | nil => exact absurd rfl hne
  | cons a t => exact List.mem_cons_self a t

theorem getLastD_mem {α : Type} (l : List α) (d : α) (hne : l ≠ []) : l.getLastD d ∈ l := by
  rw [List.getLastD_eq_getLast?, List.getLast?_eq_getLast l hne]
  exact List.getLast_mem hne

theorem sorted_headD_le {l : List ℚ} (hs : l.Sorted (· ≤ ·)) :
    ∀ x ∈ l, l.headD 0 ≤ x := by
  cases l with
  | nil => intro x hx; exact absurd hx (List.not_mem_nil x)
  | cons a t =>
    intro x hx
    rcases List.mem_cons.mp hx with h | h
    · exact h ▸ le_refl a
    · exact List.rel_of_sorted_cons hs x h

theorem sorted_le_getLastD :
    ∀ {l : List ℚ}, l.Sorted (· ≤ ·) → ∀ x ∈ l, x ≤ l.getLastD 0
  | [], _, x, hx => absurd hx (List.not_mem_nil x)
  | [a], _, x, hx => by
    simp only [List.mem_singleton] at hx
    simp [hx]
  | a :: b :: t, hs, x, hx => by
    have ih := sorted_le_getLastD (List.Sorted.of_cons hs)
    have h1 : (a :: b :: t).getLastD 0 = List.getLastD t b :=
      (List.getLastD_cons 0 a (b :: t)).trans (List.getLastD_cons a b t)
    have h3 : (b :: t).getLastD 0 = List.getLastD t b := List.getLastD_cons 0 b t
    rw [h1]
    rcases List.mem_cons.mp hx with h | h
    · have hab : a ≤ b := List.rel_of_sorted_cons hs b (List.mem_cons_self b t)
      have hb := ih b (List.mem_cons_self b t)
      rw [h3] at hb
      exact h ▸ le_trans hab hb
    · have hxr := ih x h
      rw [h3] at hxr
      exact hxr

theorem getD_length_sub_one : ∀ l : List ℚ, l.getD (l.length - 1) 0 = l.getLastD 0
  | [] => rfl
  | [_] => rfl
  | a :: b :: t => by
    have ih := getD_length_sub_one (b :: t)
    simp only [List.length_cons, Nat.add_sub_cancel] at ih ⊢
    have h1 : (a :: b :: t).getLastD 0 = List.getLastD t b :=
      (List.getLastD_cons 0 a (b :: t)).trans (List.getLastD_cons a b t)
    have h3 : (b :: t).getLastD 0 = List.getLastD t b := List.getLastD_cons 0 b t
    rw [List.getD_cons_succ, h1, ih, h3]

theorem computePercentile_zero (values : List ℚ) :
    computePercentile values 0 = values.headD 0 := by
  simp only [computePercentile, mul_zero, Int.floor_zero, Int.ceil_zero, Int.toNat_zero,
    if_pos rfl]
  cases values <;> rfl

theorem computePercentile_one (values : List ℚ) (hne : values ≠ []) :
    computePercentile values 1 = values.getLastD 0 := by
  have h1 : 1 ≤ values.length := List.length_pos.mpr hne
  have hcast : ((values.length : ℚ) - 1) * 1 = ((values.length - 1 : ℕ) : ℚ) := by
    rw [mul_one, Nat.cast_sub h1, Nat.cast_one]
  simp only [computePercentile, hcast, Int.floor_natCast, Int.ceil_natCast, Int.toNat_natCast,
    if_pos rfl]
  exact getD_length_sub_one values

/-- C8: for every non-empty ascending-sorted sample, the interpolated
percentile returns the sample's minimum at `p = 0` (the head, which is a
member and a lower bound of the sample) and the sample's maximum at
`p = 1` (the last element, a member and an upper bound). -/
theorem computePercentile_endpoints (values : List ℚ) (hne : values ≠ [])
    (hs : values.Sorted (· ≤ ·)) :
    (computePercentile values 0 ∈ values ∧
      ∀ x ∈ values, computePercentile values 0 ≤ x) ∧
    (computePercentile values 1 ∈ values ∧
      ∀ x ∈ values, x ≤ computePercentile values 1) := by
  rw [computePercentile_zero, computePercentile_one values hne]
  exact ⟨⟨headD_mem values 0 hne, sorted_headD_le hs⟩,
    getLastD_mem values 0 hne, sorted_le_getLastD hs⟩

/-- C8 witness: the endpoint property evaluated on the sorted sample
`[1, 2, 3]`. -/
theorem computePercentile_endpoints_witness :
    (computePercentile [1, 2, 3] 0 ∈ [(1 : ℚ), 2, 3] ∧
      ∀ x ∈ [(1 : ℚ), 2, 3], computePercentile [1, 2, 3] 0 ≤ x) ∧
    (computePercentile [1, 2, 3] 1 ∈ [(1 : ℚ), 2, 3] ∧
      ∀ x ∈ [(1 : ℚ), 2, 3], x ≤ computePercentile [1, 2, 3] 1) :=
  computePercentile_endpoints [1, 2, 3] (by decide) (by norm_num [List.sorted_cons])

/-- Evaluation of the cycle-time statistics on the empty sample. -/
theorem cycleStats_nil_eval : cycleStats [] = ⟨0, 0, none, none, 0⟩ := by
  simp [cycleStats, jsMinList, jsMaxList]

/-- C4 counterexample: on the empty sample the min and max statistics are
NOT 0 — they are the infinite results of `Math.min()` / `Math.max()`
(modelled by `none`). -/
theorem cycleStats_empty_minmax_not_zero :
    ¬ ((cycleStats []).min = some 0 ∧ (cycleStats []).max = some 0) := by
  rw [cycleStats_nil_eval]
  simp

/-- C4 amended: on the empty sample the 85th percentile and the mean are 0
(no NaN and no error surfaces for them), while min is `+Infinity` and
max is `-Infinity` (the empty `Math.min()` / `Math.max()` results,
modelled by `none`), not 0. -/
theorem cycleStats_empty_amended :
    (cycleStats []).p85 = 0 ∧ (cycleStats []).average = 0 ∧
    (cycleStats []).min = none ∧ (cycleStats []).max = none ∧
    (cycleStats []).count = 0 := by
  rw [cycleStats_nil_eval]
  exact ⟨rfl, rfl, rfl, rfl, rfl⟩

theorem getD_map_range {β : Type} {n i : ℕ} (f : ℕ → β) (d : β) (h : i < n) :
    ((List.range n).map f).getD i d = f i := by
  rw [List.getD_eq_getElem?_getD, List.getElem?_map, List.getElem?_range h]
  rfl

/-- C5: for every non-empty list of completion days, the daily throughput
sequence has exactly one entry per calendar day from the minimum to the
maximum completion day inclusive — length `(max - min) + 1`, entry `i`
is day `min + i` carrying the number of items completed that day (0
when none) — the days are strictly ascending, the first entry is the
minimum day and the last the maximum, and min/max really bound and
belong to the completion days. -/
theorem dailyThroughput_contiguous (days : List ℕ) (hne : days ≠ []) :
    (buildDailyThroughput days).length = maxDay days - minDay days + 1 ∧
    minDay days ∈ days ∧ maxDay days ∈ days ∧
    (∀ d ∈ days, minDay days ≤ d ∧ d ≤ maxDay days) ∧
    (∀ i, i < (buildDailyThroughput days).length →
      (buildDailyThroughput days).getD i (0, 0) =
        (minDay days + i, days.count (minDay days + i))) ∧
    ((buildDailyThroughput days).map Prod.fst).Pairwise (· < ·) ∧
    ((buildDailyThroughput days).getD 0 (0, 0)).1 = minDay days ∧
    ((buildDailyThroughput days).getD ((buildDailyThroughput days).length - 1) (0, 0)).1 =
      maxDay days := by
  have hlen0 : days.length ≠ 0 := by simpa [List.length_eq_zero] using hne
  have hbd : buildDailyThroughput days =
      (List.range (maxDay days - minDay days + 1)).map
        (fun i => (minDay days + i, days.count (minDay days + i))) := by
    simp only [buildDailyThroughput, if_neg hlen0]
  have hlen : (buildDailyThroughput days).length = maxDay days - minDay days + 1 := by
    rw [hbd]; simp
  have hminmem : minDay days ∈ days := by
    rcases foldl_min_mem days (days.headD 0) with h | h
    · rw [minDay, h]
      exact headD_mem days 0 hne
    · exact h
  have hmaxmem : maxDay days ∈ days := by
    rcases foldl_max_mem days (days.headD 0) with h | h
    · rw [maxDay, h]
      exact headD_mem days 0 hne
    · exact h
  have hbounds : ∀ d ∈ days, minDay days ≤ d ∧ d ≤ maxDay days := fun d hd =>
    ⟨foldl_min_le_mem days (days.headD 0) d hd, mem_le_foldl_max days (days.headD 0) d hd⟩
  have hminmax : minDay days ≤ maxDay days := (hbounds _ hminmem).2
  have hentry : ∀ i, i < (buildDailyThroughput days).length →
      (buildDailyThroughput days).getD i (0, 0) =
        (minDay days + i, days.count (minDay days + i)) := by
    intro i hi
    rw [hlen] at hi
    rw [hbd]
    exact getD_map_range _ _ hi
  refine ⟨hlen, hminmem, hmaxmem, hbounds, hentry, ?_, ?_, ?_⟩
  · rw [hbd, List.map_map]
    exact (List.pairwise_lt_range _).map _ (fun _ _ h => by
      simpa using Nat.add_lt_add_left h (minDay days))
  · have h0 : 0 < (buildDailyThroughput days).length := by omega
    rw [hentry 0 h0]
    simp
  · have hlast : (buildDailyThroughput days).length - 1 <
        (buildDailyThroughput days).length := by omega
    rw [hentry _ hlast, hlen]
    simp only
    omega

/-- C5 witness: the contiguity characterisation evaluated on the
completion days `[5, 3, 3]` (days 3 and 5 with a gap at 4). -/
theorem dailyThroughput_contiguous_witness :
    (buildDailyThroughput [5, 3, 3]).length = maxDay [5, 3, 3] - minDay [5, 3, 3] + 1 ∧
    minDay [5, 3, 3] ∈ [5, 3, 3] ∧ maxDay [5, 3, 3] ∈ [5, 3, 3] ∧
    (∀ d ∈ [5, 3, 3], minDay [5, 3, 3] ≤ d ∧ d ≤ maxDay [5, 3, 3]) ∧
    (∀ i, i < (buildDailyThroughput [5, 3, 3]).length →
      (buildDailyThroughput [5, 3, 3]).getD i (0, 0) =
        (minDay [5, 3, 3] + i, List.count (minDay [5, 3, 3] + i) [5, 3, 3])) ∧
    ((buildDailyThroughput [5, 3, 3]).map Prod.fst).Pairwise (· < ·) ∧
    ((buildDailyThroughput [5, 3, 3]).getD 0 (0, 0)).1 = minDay [5, 3, 3] ∧
    ((buildDailyThroughput [5, 3, 3]).getD
        ((buildDailyThroughput [5, 3, 3]).length - 1) (0, 0)).1 = maxDay [5, 3, 3] :=
  dailyThroughput_contiguous [5, 3, 3] (by decide)

theorem length_sortedTotals (tp : List ℕ) (n horizon : ℕ) (rand : ℕ → ℕ → ℕ) :
    (sortedTotals tp n horizon rand).length = n := by
  simp [sortedTotals, simTotals]

theorem sortedTotals_sorted (tp : List ℕ) (n horizon : ℕ) (rand : ℕ → ℕ → ℕ) :
    (sortedTotals tp n horizon rand).Sorted (· ≤ ·) := by
  have hp := @List.sorted_mergeSort ℕ (fun a b => decide (a ≤ b))
    (fun a b c h1 h2 => by
      simp only [decide_eq_true_eq] at h1 h2 ⊢
      omega)
    (fun a b => by
      simp only [Bool.or_eq_true, decide_eq_true_eq]
      omega)
    (simTotals tp n horizon rand)
  exact hp.imp (fun hab => by simpa using hab)

theorem floor_frac_le_sub_one (n : ℕ) (hn : 1 ≤ n) (c : ℚ) (hc0 : 0 ≤ c) (hc1 : c < 1) :
    ⌊(n : ℚ) * c⌋₊ ≤ n - 1 := by
  have hnq : (0 : ℚ) < n := by exact_mod_cast hn
  have h1 : (n : ℚ) * c < n := by
    calc (n : ℚ) * c < n * 1 := mul_lt_mul_of_pos_left hc1 hnq
      _ = n := mul_one _
  have h2 : ⌊(n : ℚ) * c⌋₊ < n := (Nat.floor_lt (by positivity)).mpr h1
  omega

/-- C1: for every non-empty historical throughput sample and every
`simulationCount n ≥ 1`, the reported confidence thresholds come from
the ascending-sorted array of trial totals at indices
`floor(n * (1 - X/100))` — p50 at `floor(n * 0.50)`, p85 at
`floor(n * 0.15)`, p95 at `floor(n * 0.05)` — and each index lies
within `[0, n - 1]` (the sorted array has length exactly `n`). -/
theorem monteCarlo_confidence_indices (tp : List ℕ) (htp : tp ≠ [])
    (n horizon : ℕ) (hn : 1 ≤ n) (rand : ℕ → ℕ → ℕ) :
    (sortedTotals tp n horizon rand).length = n ∧
    (sortedTotals tp n horizon rand).Sorted (· ≤ ·) ∧
    ⌊(n : ℚ) * (1 - 50 / 100)⌋₊ ≤ n - 1 ∧
    ⌊(n : ℚ) * (1 - 85 / 100)⌋₊ ≤ n - 1 ∧
    ⌊(n : ℚ) * (1 - 95 / 100)⌋₊ ≤ n - 1 ∧
    (runMonteCarlo tp n horizon rand).1.p50 =
      (sortedTotals tp n horizon rand).getD (⌊(n : ℚ) * (1 - 50 / 100)⌋₊) 0 ∧
    (runMonteCarlo tp n horizon rand).1.p85 =
      (sortedTotals tp n horizon rand).getD (⌊(n : ℚ) * (1 - 85 / 100)⌋₊) 0 ∧
    (runMonteCarlo tp n horizon rand).1.p95 =
      (sortedTotals tp n horizon rand).getD (⌊(n : ℚ) * (1 - 95 / 100)⌋₊) 0 := by
  have hlen0 : tp.length ≠ 0 := by simpa [List.length_eq_zero] using htp
  have hlen := length_sortedTotals tp n horizon rand
  have e50 : (1 - 50 / 100 : ℚ) = 50 / 100 := by norm_num
  have e85 : (1 - 85 / 100 : ℚ) = 15 / 100 := by norm_num
  have e95 : (1 - 95 / 100 : ℚ) = 5 / 100 := by norm_num
  have hp50 : (runMonteCarlo tp n horizon rand).1.p50 =
      (sortedTotals tp n horizon rand).getD
        (⌊((sortedTotals tp n horizon rand).length : ℚ) * (50 / 100)⌋₊) 0 := by
    simp only [runMonteCarlo, if_neg hlen0]
  have hp85 : (runMonteCarlo tp n horizon rand).1.p85 =
      (sortedTotals tp n horizon rand).getD
        (⌊((sortedTotals tp n horizon rand).length : ℚ) * (15 / 100)⌋₊) 0 := by
    simp only [runMonteCarlo, if_neg hlen0]
  have hp95 : (runMonteCarlo tp n horizon rand).1.p95 =
      (sortedTotals tp n horizon rand).getD
        (⌊((sortedTotals tp n horizon rand).length : ℚ) * (5 / 100)⌋₊) 0 := by
    simp only [runMonteCarlo, if_neg hlen0]
  rw [hlen] at hp50 hp85 hp95
  refine ⟨hlen, sortedTotals_sorted tp n horizon rand, ?_, ?_, ?_, ?_, ?_, ?_⟩
  · rw [e50]
    exact floor_frac_le_sub_one n hn _ (by norm_num) (by norm_num)
  · rw [e85]
    exact floor_frac_le_sub_one n hn _ (by norm_num) (by norm_num)
  · rw [e95]
    exact floor_frac_le_sub_one n hn _ (by norm_num) (by norm_num)
  · rw [e50]
    exact hp50
  · rw [e85]
    exact hp85
  · rw [e95]
    exact hp95

/-- C1 witness: the threshold-index characterisation evaluated at the
sample `[1]`, one simulation, a one-day horizon and the constant random
source 0. -/
theorem monteCarlo_confidence_indices_witness :
    (sortedTotals [1] 1 1 (fun _ _ => 0)).length = 1 ∧
    (sortedTotals [1] 1 1 (fun _ _ => 0)).Sorted (· ≤ ·) ∧
    ⌊(1 : ℚ) * (1 - 50 / 100)⌋₊ ≤ 1 - 1 ∧
    ⌊(1 : ℚ) * (1 - 85 / 100)⌋₊ ≤ 1 - 1 ∧
    ⌊(1 : ℚ) * (1 - 95 / 100)⌋₊ ≤ 1 - 1 ∧
    (runMonteCarlo [1] 1 1 (fun _ _ => 0)).1.p50 =
      (sortedTotals [1] 1 1 (fun _ _ => 0)).getD (⌊(1 : ℚ) * (1 - 50 / 100)⌋₊) 0 ∧
    (runMonteCarlo [1] 1 1 (fun _ _ => 0)).1.p85 =
      (sortedTotals [1] 1 1 (fun _ _ => 0)).getD (⌊(1 : ℚ) * (1 - 85 / 100)⌋₊) 0 ∧
    (runMonteCarlo [1] 1 1 (fun _ _ => 0)).1.p95 =
      (sortedTotals [1] 1 1 (fun _ _ => 0)).getD (⌊(1 : ℚ) * (1 - 95 / 100)⌋₊) 0 :=
  monteCarlo_confidence_indices [1] (by decide) 1 1 (by decide) (fun _ _ => 0)

/-- C6: on an empty historical sample the forecaster runs no simulation:
it reports zero simulations, an empty histogram, and zero for all of
p50, p85, p95, mean, min and max — no division by zero and no draw from
an empty array ever happens. -/
theorem monteCarlo_empty_sample (numSims horizon : ℕ) (rand : ℕ → ℕ → ℕ) :
    runMonteCarlo [] numSims horizon rand =
      ({ totalSimulations := 0, p50 := 0, p85 := 0, p95 := 0,
         mean := 0, min := 0, max := 0 }, []) := by
  simp [runMonteCarlo]

theorem aggregateCorrelation_mem (rows : List CorrRow) (g : CorrGroup) :
    g ∈ aggregateCorrelation rows ↔
      ∃ e ∈ corrKeys rows, mkCorrGroup e (corrMembers rows e) = g := by
  unfold aggregateCorrelation
  rw [List.mem_mergeSort, List.mem_map]

theorem aggregateCorrelation_estimates_pairwise (rows : List CorrRow) :
    ((aggregateCorrelation rows).map (fun g => g.estimate)).Pairwise (· < ·) := by
  have hbase : ((corrKeys rows).map (fun e => mkCorrGroup e (corrMembers rows e))).map
      (fun g => g.estimate) = corrKeys rows := by
    rw [List.map_map]
    exact (List.map_congr_left (fun e _ => rfl)).trans (List.map_id _)
  have hperm : ((aggregateCorrelation rows).map (fun g => g.estimate)).Perm
      (corrKeys rows) := by
    rw [← hbase]
    exact (List.mergeSort_perm _ _).map _
  have hnodup : ((aggregateCorrelation rows).map (fun g => g.estimate)).Nodup :=
    hperm.nodup_iff.mpr (List.nodup_dedup _)
  have hsorted : ((aggregateCorrelation rows).map (fun g => g.estimate)).Pairwise
      (· ≤ ·) := by
    have hp := @List.sorted_mergeSort CorrGroup
      (fun a b => decide (a.estimate ≤ b.estimate))
      (fun a b c h1 h2 => by
        simp only [decide_eq_true_eq] at h1 h2 ⊢
        omega)
      (fun a b => by
        simp only [Bool.or_eq_true, decide_eq_true_eq]
        omega)
      ((corrKeys rows).map (fun e => mkCorrGroup e (corrMembers rows e)))
    rw [List.pairwise_map]
    exact hp.imp (fun hab => by simpa using hab)
  exact (hsorted.and hnodup).imp (fun hab => lt_of_le_of_ne hab.1 hab.2)

/-- C7 amended: the correlation aggregation groups rows by integer-parsed
estimate, keeping exactly the rows whose estimate parses and whose cycle
time parses to a strictly positive number — a zero or negative parsed
estimate is NOT excluded — and emits, sorted strictly ascending by
estimate, one group per occurring estimate whose members are that
estimate's qualifying rows in order and whose count / min / max / avg
summarise the members' cycle times. -/
theorem corr_aggregation_amended (rows : List CorrRow) :
    ((aggregateCorrelation rows).map (fun g => g.estimate)).Pairwise (· < ·) ∧
    (∀ g ∈ aggregateCorrelation rows,
      g.items = corrMembers rows g.estimate ∧
      g.items ≠ [] ∧
      g.count = g.items.length ∧
      (g.minCT ∈ g.items.map (fun it => it.2) ∧
        ∀ c ∈ g.items.map (fun it => it.2), g.minCT ≤ c) ∧
      (g.maxCT ∈ g.items.map (fun it => it.2) ∧
        ∀ c ∈ g.items.map (fun it => it.2), c ≤ g.maxCT) ∧
      g.avgCT = (g.items.map (fun it => it.2)).sum /
        ((g.items.map (fun it => it.2)).length : ℚ)) ∧
    (∀ e : ℤ, (∃ g ∈ aggregateCorrelation rows, g.estimate = e) ↔
      e ∈ (corrEntries rows).map (fun x => x.1)) := by
  refine ⟨aggregateCorrelation_estimates_pairwise rows, ?_, ?_⟩
  · intro g hg
    rcases (aggregateCorrelation_mem rows g).mp hg with ⟨e, he, hge⟩
    subst hge
    have hment : ∃ x ∈ corrEntries rows, x.1 = e := by
      have he2 : e ∈ (corrEntries rows).map (fun x => x.1) := by
        rw [corrKeys] at he
        exact List.mem_dedup.mp he
      rcases List.mem_map.mp he2 with ⟨x, hx, hxe⟩
      exact ⟨x, hx, hxe⟩
    rcases hment with ⟨x, hx, hxe⟩
    have hxf : x ∈ (corrEntries rows).filter (fun y => y.1 = e) :=
      List.mem_filter.mpr ⟨hx, by simp [hxe]⟩
    have hmem2 : x.2 ∈ corrMembers rows e := by
      rw [corrMembers]
      exact List.mem_map.mpr ⟨x, hxf, rfl⟩
    have hne : corrMembers rows e ≠ [] := List.ne_nil_of_mem hmem2
    have hctsne : (corrMembers rows e).map (fun it => it.2) ≠ [] := by
      intro hc
      exact hne (List.map_eq_nil_iff.mp hc)
    refine ⟨rfl, hne, rfl, ⟨?_, ?_⟩, ⟨?_, ?_⟩, rfl⟩
    · show ((corrMembers rows e).map (fun it => it.2)).foldl min
        (((corrMembers rows e).map (fun it => it.2)).headD 0) ∈
          (corrMembers rows e).map (fun it => it.2)
      rcases foldl_min_mem ((corrMembers rows e).map (fun it => it.2))
          (((corrMembers rows e).map (fun it => it.2)).headD 0) with h | h
      · rw [h]
        exact headD_mem _ 0 hctsne
      · exact h
    · intro c hc
      exact foldl_min_le_mem _ _ c hc
    · show ((corrMembers rows e).map (fun it => it.2)).foldl max
        (((corrMembers rows e).map (fun it => it.2)).headD 0) ∈
          (corrMembers rows e).map (fun it => it.2)
      rcases foldl_max_mem ((corrMembers rows e).map (fun it => it.2))
          (((corrMembers rows e).map (fun it => it.2)).headD 0) with h | h
      · rw [h]
        exact headD_mem _ 0 hctsne
      · exact h
    · intro c hc
      exact mem_le_foldl_max _ _ c hc
  · intro e
    constructor
    · rintro ⟨g, hg, hge⟩
      rcases (aggregateCorrelation_mem rows g).mp hg with ⟨e', he', hge'⟩
      have hee : e' = e := by
        rw [← hge, ← hge']
        exact rfl
      subst hee
      rw [corrKeys] at he'
      exact List.mem_dedup.mp he'
    · intro he
      have hk : e ∈ corrKeys rows := by
        rw [corrKeys]
        exact List.mem_dedup.mpr he
      exact ⟨mkCorrGroup e (corrMembers rows e),
        (aggregateCorrelation_mem rows _).mpr ⟨e, hk, rfl⟩, rfl⟩

/-- C7 witness: the amended aggregation contract evaluated on the rows
`{(est "3", ct "5"), (est "3", ct "9"), (est "5", ct "2")}`. -/
theorem corr_aggregation_amended_witness :
    ((aggregateCorrelation [⟨"3", "5", "A"⟩, ⟨"3", "9", "B"⟩, ⟨"5", "2", "C"⟩]).map
        (fun g => g.estimate)).Pairwise (· < ·) ∧
    (∀ g ∈ aggregateCorrelation [⟨"3", "5", "A"⟩, ⟨"3", "9", "B"⟩, ⟨"5", "2", "C"⟩],
      g.items = corrMembers [⟨"3", "5", "A"⟩, ⟨"3", "9", "B"⟩, ⟨"5", "2", "C"⟩] g.estimate ∧
      g.items ≠ [] ∧
      g.count = g.items.length ∧
      (g.minCT ∈ g.items.map (fun it => it.2) ∧
        ∀ c ∈ g.items.map (fun it => it.2), g.minCT ≤ c) ∧
      (g.maxCT ∈ g.items.map (fun it => it.2) ∧
        ∀ c ∈ g.items.map (fun it => it.2), c ≤ g.maxCT) ∧
      g.avgCT = (g.items.map (fun it => it.2)).sum /
        ((g.items.map (fun it => it.2)).length : ℚ)) ∧
    (∀ e : ℤ,
      (∃ g ∈ aggregateCorrelation [⟨"3", "5", "A"⟩, ⟨"3", "9", "B"⟩, ⟨"5", "2", "C"⟩],
        g.estimate = e) ↔
      e ∈ (corrEntries [⟨"3", "5", "A"⟩, ⟨"3", "9", "B"⟩, ⟨"5", "2", "C"⟩]).map
        (fun x => x.1)) :=
  corr_aggregation_amended [⟨"3", "5", "A"⟩, ⟨"3", "9", "B"⟩, ⟨"5", "2", "C"⟩]

theorem jsParseFloat_five : jsParseFloat "5" = some 5 := by
  rw [jsParseFloat, show jsParseFloatParts "5".toList = some (1, 5, 0, 0) from by decide]
  simp only [Option.map_some', Option.some.injEq]
  norm_num

theorem corrQualifies_zero_estimate :
    corrQualifies ⟨"0", "5", "A"⟩ = some (0, "A", 5) := by
  have hint : jsParseInt "0" = some 0 := by decide
  simp only [corrQualifies, hint, jsParseFloat_five]
  rw [if_pos (by norm_num : (0 : ℚ) < 5)]

theorem corr_counterexample_eval :
    aggregateCorrelation [⟨"0", "5", "A"⟩] =
      [{ estimate := 0, minCT := 5, maxCT := 5, avgCT := 5, count := 1,
         items := [("A", 5)] }] := by
  have hent : corrEntries [⟨"0", "5", "A"⟩] = [(0, "A", 5)] := by
    simp [corrEntries, corrQualifies_zero_estimate]
  have hkeys : corrKeys [⟨"0", "5", "A"⟩] = [0] := by
    simp [corrKeys, hent]
  have hmem : corrMembers [⟨"0", "5", "A"⟩] 0 = [("A", 5)] := by
    simp [corrMembers, hent]
  rw [aggregateCorrelation, hkeys, List.map_cons, List.map_nil, hmem,
    List.mergeSort_singleton]
  simp only [mkCorrGroup, List.map_cons, List.map_nil, List.headD_cons, List.foldl_cons,
    List.foldl_nil, min_self, max_self, List.sum_cons, List.sum_nil, List.length_cons,
    List.length_nil, CorrGroup.mk.injEq, List.cons.injEq]
  norm_num

/-- C7 counterexample: the row with estimate text "0" (parsed estimate 0,
a non-positive value) and cycle time 5 is NOT excluded by the
aggregation: it produces a group with estimate 0 and count 1, where the
claim's exclusion of non-positive estimates would have produced no
group. -/
theorem corr_nonpositive_estimate_not_excluded :
    (aggregateCorrelation [⟨"0", "5", "A"⟩]).map (fun g => g.estimate) = [0] ∧
    (aggregateCorrelation [⟨"0", "5", "A"⟩]).map (fun g => g.count) = [1] ∧
    ¬ ((0 : ℤ) > 0) := by
  rw [corr_counterexample_eval]
  norm_num

/-- C9: the date parser's range check validates only `1 ≤ day ≤ 31`,
`1 ≤ month ≤ 12`, `2020 ≤ year ≤ 2030` and never the day against the
month length: "31/04/2024" names a nonexistent calendar date (April
2024 has 30 days) yet is accepted, and it rolls over to 1 May 2024, so
it parses to the very same normalised calendar day as the distinct
input string "1/5/2024" and the two group identically downstream; the
range bounds themselves are enforced. -/
theorem dateParser_rollover_groups_like_next_month :
    daysInMonth 2024 4 = 30 ∧
    parseEndDate "31/04/2024" = some (dayNumber 2024 5 1) ∧
    parseEndDate "1/5/2024" = some (dayNumber 2024 5 1) ∧
    parseEndDate "31/04/2024" = parseEndDate "1/5/2024" ∧
    parseEndDate "32/04/2024" = none ∧
    parseEndDate "31/13/2024" = none ∧
    parseEndDate "31/04/2019" = none ∧
    parseEndDate "31/04/2031" = none :=
  ⟨by decide, by decide, by decide, by decide, by decide, by decide, by decide, by decide⟩

/-- The two-row table whose only column, "End", holds day-first date
strings — the Tier-2 fallback input of the cycle-time components. -/
def c10Rows : List Row :=
  [[("End", "12/05/2023")], [("End", "20/06/2023")]]

/-- C10: with headers `["End"]` there is no Tier-1 cycle-time header, and
the Tier-2 content-based fallback assigns the column of day-first date
strings to the cycle-time role: `parseFloat("12/05/2023")` reads the
leading number 12, which lies in `[0, 100]`, so every sampled value
passes the cycle-time test and the date column fills both roles. -/
theorem fallback_assigns_date_column_to_ct :
    findHeader ["End"] ["ct", "cycle time"] = none ∧
    matchesDatePattern (jsTrim "12/05/2023".toList) = true ∧
    jsParseFloat "12/05/2023" = some 12 ∧
    (0 : ℚ) ≤ 12 ∧ (12 : ℚ) ≤ 100 ∧
    resolveCtColumns ["End"] c10Rows = (some "End", some "End") := by
  have h1 : findHeader ["End"] ["end", "end date"] = some "End" := by decide
  have h2 : findHeader ["End"] ["ct", "cycle time"] = none := by decide
  have hsv : sampleValues c10Rows "End" = ["12/05/2023", "20/06/2023"] := by decide
  have hf1 : jsParseFloat "12/05/2023" = some 12 := by
    rw [jsParseFloat,
      show jsParseFloatParts "12/05/2023".toList = some (1, 12, 0, 0) from by decide]
    simp only [Option.map_some', Option.some.injEq]
    norm_num
  have hf2 : jsParseFloat "20/06/2023" = some 20 := by
    rw [jsParseFloat,
      show jsParseFloatParts "20/06/2023".toList = some (1, 20, 0, 0) from by decide]
    simp only [Option.map_some', Option.some.injEq]
    norm_num
  have hct : isCycleTimeColumn c10Rows "End" = true := by
    rw [isCycleTimeColumn, hsv]
    simp only [List.all_cons, List.all_nil, hf1, hf2]
    norm_num
  have hresolve : resolveCtColumns ["End"] c10Rows = (some "End", some "End") := by
    rw [resolveCtColumns, h1, h2]
    simp only [Option.isSome_some, Option.isSome_none, Bool.and_false, Bool.false_eq_true,
      if_false, List.foldl_cons, List.foldl_nil, Option.isNone_some, Bool.false_and,
      if_false, Option.isNone_none, Bool.true_and, hct, if_true]
  exact ⟨h2, by decide, hf1, by norm_num, by norm_num, hresolve⟩

end CtScan
